import Mathlib

/-!
Verification development for the position-evaluation network of the Santorini
game agent (file santorini/SantoriniNNet.py) and for the tournament loop
(file Arena.py).

The embedding works on exact rationals for the tensor arithmetic and on real
numbers for the final log-softmax / tanh normalization.  All modules are
modelled in evaluation mode (training=False), where F.dropout is the identity
and BatchNorm with frozen running statistics is an elementwise affine map.
-/

/-- ReLU on one rational value. -/
def relu (q : ℚ) : ℚ := max q 0

/-- F.relu applied elementwise to a feature vector. -/
def reluV (l : List ℚ) : List ℚ := l.map relu

/-- Dot product of a weight row with a feature vector. -/
def dot (w x : List ℚ) : ℚ := ((w.zip x).map fun p => p.1 * p.2).sum

/-- nn.Linear: output j is bias j plus the dot product of weight row j with the
input.  Weight rows are indexed by output features. -/
def linear (w : List (List ℚ)) (b : List ℚ) (x : List ℚ) : List ℚ :=
  (w.zip b).map fun rb => rb.2 + dot rb.1 x

/-- Evaluation-mode BatchNorm over a single channel: the map
t, gamma * (t - mean) / sqrt(var + eps) + beta, reparameterized as the
elementwise affine map t, a * t + b with a = gamma / sqrt(var + eps) and
b = beta - a * mean. -/
def bnApply (ab : ℚ × ℚ) (l : List ℚ) : List ℚ := l.map fun t => ab.1 * t + ab.2

/-- The optional BatchNorm1d inside DenseAndPartialGPool: nn.Identity when
channels_for_batchnorm is 0. -/
def bnOpt (o : Option (ℚ × ℚ)) (l : List ℚ) : List ℚ :=
  match o with
  | none => l
  | some ab => bnApply ab l

/-- nn.MaxPool1d over one pooling window: the maximum of the elements. -/
def lmax : List ℚ → ℚ
  | [] => 0
  | a :: t => t.foldl max a

/-- nn.AvgPool1d with kernel size k over one pooling window. -/
def lavg (k : Nat) (l : List ℚ) : ℚ := l.sum / (k : ℚ)

/-- torch split along the last dimension, given a list of segment sizes. -/
def chunk {α : Type} : List α → List Nat → List (List α)
  | _, [] => []
  | x, s :: rest => x.take s :: chunk (x.drop s) rest

/-- view(-1, d) on a flat vector: the list of consecutive pieces of size d. -/
def chunksOf {α : Type} (d : Nat) (l : List α) : List (List α) :=
  chunk l (List.replicate (l.length / d) d)

/-- State of a constructed DenseAndPartialGPool module.  dense_input and
dense_output are the derived sizes of the nn.Linear branch; w, b are its
weight matrix and bias; bn is the optional evaluation-mode batchnorm. -/
structure DenseAndPartialGPool where
  nb_groups : Nat
  nb_items_in_groups : Nat
  dense_input : Nat
  dense_output : Nat
  w : List (List ℚ)
  b : List ℚ
  bn : Option (ℚ × ℚ)
deriving DecidableEq

/-- DenseAndPartialGPool.__init__: dense_input = input_length - nb_groups *
nb_items_in_groups and dense_output = output_length - 2 * nb_groups are
handed to nn.Linear, which raises at construction time when either is
negative (torch refuses tensors with a negative dimension).  The error value
stands for that construction-time exception. -/
def DenseAndPartialGPool.init (input_length output_length nb_groups nb_items_in_groups : Nat)
    (w : List (List ℚ)) (b : List ℚ) (bn : Option (ℚ × ℚ)) :
    Except String DenseAndPartialGPool :=
  if nb_groups * nb_items_in_groups ≤ input_length then
    if 2 * nb_groups ≤ output_length then
      .ok { nb_groups := nb_groups, nb_items_in_groups := nb_items_in_groups,
            dense_input := input_length - nb_groups * nb_items_in_groups,
            dense_output := output_length - 2 * nb_groups,
            w := w, b := b, bn := bn }
    else .error "nn.Linear: negative output dimension"
  else .error "nn.Linear: negative input dimension"

/-- DenseAndPartialGPool.forward: split the input in nb_groups windows of
nb_items_in_groups elements plus the dense remainder (the last chunk), max-
and avg-pool every window, run the remainder through Linear, optional
BatchNorm and ReLU, and concatenate maxes, then averages, then the dense
result.  groups_for_gpool.take nb_groups is the python slice [:-1] and
getLastD is the index [-1], since chunk always returns nb_groups + 1 pieces. -/
def DenseAndPartialGPool.forward (c : DenseAndPartialGPool) (x : List ℚ) : List ℚ :=
  let groups_for_gpool := chunk x (List.replicate c.nb_groups c.nb_items_in_groups ++ [c.dense_input])
  let maxpool_results := (groups_for_gpool.take c.nb_groups).map lmax
  let avgpool_results := (groups_for_gpool.take c.nb_groups).map (lavg c.nb_items_in_groups)
  let dense_result := reluV (bnOpt c.bn (linear c.w c.b (groups_for_gpool.getLastD [])))
  maxpool_results ++ avgpool_results ++ dense_result

/-- State of a constructed Conv2dAndPartialMaxPool module with its derived
conv_input and conv_output channel counts. -/
structure Conv2dAndPartialMaxPool where
  nb_channel_maxplanar : Nat
  kernel_maxplanar : Nat
  nb_groups_maxchannel : Nat
  kernel_maxchannel : Nat
  conv_input : Nat
  conv_output : Nat
deriving DecidableEq

/-- Conv2dAndPartialMaxPool.__init__: conv_input = input_length -
nb_channel_maxplanar - nb_groups_maxchannel * kernel_maxchannel and
conv_output = output_length - nb_channel_maxplanar - nb_groups_maxchannel are
handed to nn.Conv2d, which raises at construction time when either is
negative. -/
def Conv2dAndPartialMaxPool.init (input_length output_length kernel_conv nb_channel_maxplanar
    kernel_maxplanar nb_groups_maxchannel kernel_maxchannel : Nat) :
    Except String Conv2dAndPartialMaxPool :=
  if nb_channel_maxplanar + nb_groups_maxchannel * kernel_maxchannel ≤ input_length then
    if nb_channel_maxplanar + nb_groups_maxchannel ≤ output_length then
      .ok { nb_channel_maxplanar := nb_channel_maxplanar, kernel_maxplanar := kernel_maxplanar,
            nb_groups_maxchannel := nb_groups_maxchannel, kernel_maxchannel := kernel_maxchannel,
            conv_input := input_length - nb_channel_maxplanar - nb_groups_maxchannel * kernel_maxchannel,
            conv_output := output_length - nb_channel_maxplanar - nb_groups_maxchannel }
    else .error "nn.Conv2d: negative output channels"
  else .error "nn.Conv2d: negative input channels"

/-- The version ids with an architecture branch in SantoriniNNet.__init__, in
source order. -/
def archVersions : List Int := [1, 10, 11, 12, 13, 20, 21, 22, 23, 24, 25, 70, 66, 67]

/-- The constant registered as the buffer named lowvalue: FloatTensor([-1e8]). -/
def lowvalue : ℚ := -100000000

/-- The part of SantoriniNNet visible to construction-time dispatch: the
stored version, whether the taken branch assigned any pipeline stages, and
the lowvalue buffer registered after the branch. -/
structure SantoriniNNet where
  version : Int
  definesStages : Bool
  lowvalueBuffer : ℚ
deriving DecidableEq

/-- SantoriniNNet.__init__ version dispatch: version -1 is passed through with
no stages defined (empty NN for pit.py), each id in archVersions builds its
stage list, and any other id raises.  The error value models the raised
exception, after which no object exists. -/
def SantoriniNNet.init (version : Int) : Except String SantoriniNNet :=
  if version = -1 then
    .ok { version := version, definesStages := false, lowvalueBuffer := lowvalue }
  else if version ∈ archVersions then
    .ok { version := version, definesStages := true, lowvalueBuffer := lowvalue }
  else .error "Warning, unknown NN version"

/-- The version ids matched by some branch of SantoriniNNet.forward.  For any
other stored version, forward assigns neither pi nor v and the final line
raises UnboundLocalError, so no evaluation ever succeeds. -/
def forwardVersions : List Int := [1, 10, 11, 12, 13, 20, 21, 22, 23, 24, 25, 66, 70, 67]

/-- Whether SantoriniNNet.forward has a branch for this version (otherwise
every call fails). -/
def SantoriniNNet.forwardDispatches (version : Int) : Bool :=
  decide (version ∈ forwardVersions)

/-- Weights of one nn.Linear layer. -/
structure LinW where
  w : List (List ℚ)
  b : List ℚ
deriving DecidableEq

def linApply (l : LinW) (x : List ℚ) : List ℚ := linear l.w l.b x

/-- All weights of the version-1 architecture, in pipeline order:
dense1d_1 = Linear + ReLU; partialgpool_1; dense1d_2 = Linear + BN + ReLU then
Linear + ReLU; partialgpool_2; dense1d_3 = twice (Linear + BN + ReLU);
output_layers_PI = Linear, Linear; output_layers_V = Linear, Linear. -/
structure V1Weights where
  d1 : LinW
  pg1 : DenseAndPartialGPool
  d2a : LinW
  d2a_bn : ℚ × ℚ
  d2b : LinW
  pg2 : DenseAndPartialGPool
  d3a : LinW
  d3a_bn : ℚ × ℚ
  d3b : LinW
  d3b_bn : ℚ × ℚ
  piA : LinW
  piB : LinW
  vA : LinW
  vB : LinW
deriving DecidableEq

/-- The version-1 stage list applied to one flattened board (evaluation mode,
so every F.dropout is the identity). -/
def v1Trunk (W : V1Weights) (x0 : List ℚ) : List ℚ :=
  let x1 := reluV (linApply W.d1 x0)
  let x2 := DenseAndPartialGPool.forward W.pg1 x1
  let x3 := reluV (linApply W.d2b (reluV (bnApply W.d2a_bn (linApply W.d2a x2))))
  let x4 := DenseAndPartialGPool.forward W.pg2 x3
  reluV (bnApply W.d3b_bn (linApply W.d3b (reluV (bnApply W.d3a_bn (linApply W.d3a x4)))))

/-- Raw policy logits: output_layers_PI applied to the trunk output. -/
def v1PolicyLogits (W : V1Weights) (x0 : List ℚ) : List ℚ :=
  linApply W.piB (linApply W.piA (v1Trunk W x0))

/-- Raw value logits: output_layers_V applied to the trunk output. -/
def v1ValueLogits (W : V1Weights) (x0 : List ℚ) : List ℚ :=
  linApply W.vB (linApply W.vA (v1Trunk W x0))

/-- torch.where(valid_actions, piRaw, lowvalue): keep the logit where the mask
is true, overwrite it with lowvalue where the mask is false. -/
def maskWhere (valid : List Bool) (piRaw : List ℚ) : List ℚ :=
  (valid.zip piRaw).map fun p => if p.1 then p.2 else lowvalue

/-- F.log_softmax along the action dimension. -/
noncomputable def logSoftmax (l : List ℝ) : List ℝ :=
  l.map fun t => t - Real.log ((l.map Real.exp).sum)

/-- SantoriniNNet.forward, version-1 branch, on one board already flattened to
vect_dim * nb_vect entries: mask the raw policy logits with torch.where, then
log-softmax them; squash the value logits with tanh. -/
noncomputable def SantoriniNNet.elemForwardV1 (W : V1Weights) (valid : List Bool) (x0 : List ℚ) :
    List ℝ × List ℝ :=
  let piMasked := maskWhere valid (v1PolicyLogits W x0)
  (logSoftmax (piMasked.map fun q : ℚ => (q : ℝ)),
   (v1ValueLogits W x0).map fun q : ℚ => Real.tanh (q : ℝ))

/-- transpose(-1, -2) on a rectangular 2-D tensor given as rows. -/
def transposeRect (M : List (List ℚ)) : List (List ℚ) :=
  (List.range (M.headD []).length).map fun j => M.map fun row => row.getD j 0

/-- SantoriniNNet.forward for version 1: input_data.transpose(-1,-2) is read
in logical order and view(-1, vect_dim, nb_vect) cuts it into boards of
vect_dim * nb_vect entries, inferring the batch size; view raises when the
element count is not a multiple of that size.  Each board then runs through
the stage list and the output heads. -/
noncomputable def SantoriniNNet.forwardV1 (nb_vect vect_dim : Nat) (W : V1Weights)
    (input : List (List ℚ)) (valid : List Bool) : Option (List (List ℝ × List ℝ)) :=
  let flat := (transposeRect input).flatten
  if vect_dim * nb_vect ≠ 0 ∧ vect_dim * nb_vect ∣ flat.length then
    some ((chunksOf (vect_dim * nb_vect) flat).map fun x0 => SantoriniNNet.elemForwardV1 W valid x0)
  else none

/-- Probabilities recovered from log-probabilities: exp(log_policy). -/
noncomputable def policyProbs (lp : List ℝ) : List ℝ := lp.map Real.exp

/-- Index i carries a maximal entry of the list. -/
def IsArgmax (l : List ℝ) (i : Nat) : Prop :=
  ∃ p : ℝ, l[i]? = some p ∧ ∀ (j : Nat) (q : ℝ), l[j]? = some q → q ≤ p

/-- One iteration of the Arena.playGames loop: game i is played one-vs-two
when i mod 4 is 0 or 3, and exactly one of the three counters (oneWon,
twoWon, draws) is incremented according to the game result. -/
def Arena.playStep (acc : Nat × Nat × Nat) (i : Nat) (gameResult : ℚ) : Nat × Nat × Nat :=
  let one_vs_two : Bool := i % 4 == 0 || i % 4 == 3
  if gameResult = (if one_vs_two then 1 else -1) then (acc.1 + 1, acc.2.1, acc.2.2)
  else if gameResult = (if one_vs_two then -1 else 1) then (acc.1, acc.2.1 + 1, acc.2.2)
  else (acc.1, acc.2.1, acc.2.2 + 1)

/-- Arena.playGames num: fold the per-game counter update over the num game
results (results i is the value of playGame for game i, a rational since
draws may be fractional codes such as 0.5). -/
def Arena.playGames (num : Nat) (results : Nat → ℚ) : Nat × Nat × Nat :=
  (List.range num).foldl (fun acc i => Arena.playStep acc i (results i)) (0, 0, 0)

/-- A row of k zero weights. -/
def zeroRow (k : Nat) : List ℚ := List.replicate k 0

/-- An m-by-k nn.Linear whose weights and biases are all zero. -/
def zeroLin (m k : Nat) : LinW :=
  { w := List.replicate m (zeroRow k), b := List.replicate m 0 }

/-- The version-1 DenseAndPartialGPool(128, 128, nb_groups=6,
nb_items_in_groups=3, channels_for_batchnorm=1) with all-zero dense weights
and a zero batchnorm affine map. -/
def zeroGPool : DenseAndPartialGPool :=
  { nb_groups := 6, nb_items_in_groups := 3, dense_input := 110, dense_output := 116,
    w := List.replicate 116 (zeroRow 110), b := List.replicate 116 0, bn := some (0, 0) }

/-- Version-1 weights with every layer zeroed except the final policy bias pb
(the shapes are the version-1 shapes for the 25-by-3 Santorini encoding and
action size 2). -/
def Wzero (pb : List ℚ) : V1Weights :=
  { d1 := zeroLin 128 75, pg1 := zeroGPool, d2a := zeroLin 128 128, d2a_bn := (0, 0),
    d2b := zeroLin 128 128, pg2 := zeroGPool, d3a := zeroLin 128 128, d3a_bn := (0, 0),
    d3b := zeroLin 128 128, d3b_bn := (0, 0), piA := zeroLin 128 128,
    piB := { w := List.replicate 2 (zeroRow 128), b := pb },
    vA := zeroLin 128 128, vB := zeroLin 2 128 }

/-- Weights whose policy logits on the zero board are [-2e8, 0]: the logit of
the only valid action lies below lowvalue. -/
def W0 : V1Weights := Wzero [-200000000, 0]

/-- Weights whose policy logits on the zero board are [0, 0]. -/
def W1 : V1Weights := Wzero [0, 0]

/-- The zero board in the declared 25-by-3 encoding shape. -/
def input0 : List (List ℚ) := List.replicate 25 (List.replicate 3 0)

/-- The zero board flattened to the wrong shape (1, 75). -/
def input1 : List (List ℚ) := [List.replicate 75 0]

/-- A mask with one valid action (index 0) and one invalid action (index 1). -/
def valid0 : List Bool := [true, false]

/-- Dense weights for a small DenseAndPartialGPool instance. -/
def wG : List (List ℚ) := [[1, 0, 0, 0], [0, 1, 0, 0]]

/-- Dense bias for the small instance. -/
def bG : List ℚ := [0, 0]

/-- The module DenseAndPartialGPool.init 8 6 2 2 wG bG none constructs. -/
def cG : DenseAndPartialGPool :=
  { nb_groups := 2, nb_items_in_groups := 2, dense_input := 4, dense_output := 2,
    w := wG, b := bG, bn := none }

/-- The module Conv2dAndPartialMaxPool.init 11 7 3 2 3 2 3 constructs. -/
def cC : Conv2dAndPartialMaxPool :=
  { nb_channel_maxplanar := 2, kernel_maxplanar := 3, nb_groups_maxchannel := 2,
    kernel_maxchannel := 3, conv_input := 3, conv_output := 3 }

/-! Basic facts about the split, pooling and linear operations. -/

theorem chunk_length {α : Type} (szs : List Nat) (x : List α) :
    (chunk x szs).length = szs.length := by
  induction szs generalizing x with
  | nil => rfl
  | cons s rest ih => simp [chunk, ih]

theorem chunk_append {α : Type} (s₁ s₂ : List Nat) (x : List α) :
    chunk x (s₁ ++ s₂) = chunk x s₁ ++ chunk (x.drop s₁.sum) s₂ := by
  induction s₁ generalizing x with
  | nil => simp [chunk]
  | cons s rest ih =>
    have h1 : (s :: rest) ++ s₂ = s :: (rest ++ s₂) := rfl
    have h2 : chunk x (s :: (rest ++ s₂)) = x.take s :: chunk (x.drop s) (rest ++ s₂) := rfl
    have h3 : chunk x (s :: rest) = x.take s :: chunk (x.drop s) rest := rfl
    rw [h1, h2, h3, ih (x.drop s), List.drop_drop, List.cons_append, List.sum_cons]

theorem chunk_of_append {α : Type} (s : List Nat) (a t : List α) (h : s.sum ≤ a.length) :
    chunk (a ++ t) s = chunk a s := by
  induction s generalizing a with
  | nil => rfl
  | cons s rest ih =>
    have hs : s ≤ a.length := by simp [List.sum_cons] at h; omega
    have ht : List.take s (a ++ t) = List.take s a := by
      rw [List.take_append_eq_append_take, Nat.sub_eq_zero_of_le hs, List.take_zero,
        List.append_nil]
    have hd : List.drop s (a ++ t) = a.drop s ++ t := by
      rw [List.drop_append_eq_append_drop, Nat.sub_eq_zero_of_le hs, List.drop_zero]
    have hsum : rest.sum ≤ (a.drop s).length := by
      rw [List.length_drop]
      simp [List.sum_cons] at h
      omega
    simp only [chunk, ht, hd, ih (a.drop s) hsum]

theorem chunk_replicate_sizes {α : Type} (G K : Nat) (x : List α) :
    chunk x (List.replicate G K) = (List.range G).map fun i => (x.drop (i * K)).take K := by
  induction G generalizing x with
  | zero => rfl
  | succ n ih =>
    rw [List.replicate_succ, List.range_succ_eq_map]
    simp only [chunk, ih, List.map_cons, List.map_map, Nat.zero_mul, List.drop_zero]
    refine congrArg₂ List.cons rfl ?_
    refine List.map_congr_left fun i _ => ?_
    simp only [Function.comp_apply, List.drop_drop]
    rw [Nat.succ_mul, Nat.add_comm]

theorem chunk_replicate_val {α : Type} (a : α) (szs : List Nat) (n : Nat) (h : szs.sum ≤ n) :
    chunk (List.replicate n a) szs = szs.map fun s => List.replicate s a := by
  induction szs generalizing n with
  | nil => rfl
  | cons s rest ih =>
    have hs : s ≤ n := by simp [List.sum_cons] at h; omega
    have hsum : rest.sum ≤ n - s := by simp [List.sum_cons] at h; omega
    simp only [chunk, List.take_replicate, List.drop_replicate, List.map_cons,
      min_eq_left hs, ih (n - s) hsum]

theorem length_linear (w : List (List ℚ)) (b : List ℚ) (x : List ℚ) :
    (linear w b x).length = min w.length b.length := by
  simp [linear]

theorem length_reluV (l : List ℚ) : (reluV l).length = l.length := by
  simp [reluV]

theorem length_bnOpt (o : Option (ℚ × ℚ)) (l : List ℚ) : (bnOpt o l).length = l.length := by
  cases o <;> simp [bnOpt, bnApply]

theorem dot_zeroRow (k : Nat) (x : List ℚ) : dot (zeroRow k) x = 0 := by
  induction k generalizing x with
  | zero => simp [dot, zeroRow]
  | succ n ih =>
    cases x with
    | nil => simp [dot]
    | cons y ys => simpa [dot, zeroRow, List.replicate_succ] using ih ys

theorem linear_zeroW (b : List ℚ) (k : Nat) (x : List ℚ) :
    linear (List.replicate b.length (zeroRow k)) b x = b := by
  induction b with
  | nil => rfl
  | cons c bt ih => simpa [linear, List.replicate_succ, dot_zeroRow] using ih

theorem linApply_zeroLin (m k : Nat) (x : List ℚ) :
    linApply (zeroLin m k) x = List.replicate m 0 := by
  have h := linear_zeroW (List.replicate m (0 : ℚ)) k x
  simpa [linApply, zeroLin] using h

theorem reluV_zero (n : Nat) : reluV (List.replicate n (0 : ℚ)) = List.replicate n 0 := by
  simp [reluV, List.map_replicate, relu]

theorem bnApply_zero (l : List ℚ) : bnApply (0, 0) l = List.replicate l.length 0 := by
  simp [bnApply]

theorem le_foldl_max (t : List ℚ) (a : ℚ) : a ≤ t.foldl max a := by
  induction t generalizing a with
  | nil => exact le_refl a
  | cons b t ih => exact le_trans (le_max_left a b) (ih (max a b))

theorem mem_le_foldl_max (t : List ℚ) (a x : ℚ) (hx : x ∈ t) : x ≤ t.foldl max a := by
  induction t generalizing a with
  | nil => cases hx
  | cons b t ih =>
    rcases List.mem_cons.mp hx with h | h
    · subst h
      exact le_trans (le_max_right a x) (le_foldl_max t (max a x))
    · exact ih (max a b) h

theorem foldl_max_mem (t : List ℚ) (a : ℚ) : t.foldl max a = a ∨ t.foldl max a ∈ t := by
  induction t generalizing a with
  | nil => exact Or.inl rfl
  | cons b t ih =>
    rcases ih (max a b) with h | h
    · rcases max_choice a b with hm | hm
      · exact Or.inl (by rw [List.foldl_cons, h, hm])
      · exact Or.inr (by rw [List.foldl_cons, h, hm]; exact List.mem_cons_self b t)
    · exact Or.inr (List.mem_cons_of_mem b h)

theorem lmax_mem (l : List ℚ) (h : l ≠ []) : lmax l ∈ l := by
  cases l with
  | nil => exact absurd rfl h
  | cons a t =>
    show t.foldl max a ∈ a :: t
    rcases foldl_max_mem t a with h1 | h1
    · rw [h1]; exact List.mem_cons_self a t
    · exact List.mem_cons_of_mem a h1

theorem le_lmax (l : List ℚ) (x : ℚ) (hx : x ∈ l) : x ≤ lmax l := by
  cases l with
  | nil => cases hx
  | cons a t =>
    show x ≤ t.foldl max a
    rcases List.mem_cons.mp hx with h | h
    · subst h; exact le_foldl_max t x
    · exact mem_le_foldl_max t a x h

theorem lmax_perm (l₁ l₂ : List ℚ) (hp : l₁.Perm l₂) (h : l₁ ≠ []) : lmax l₁ = lmax l₂ := by
  have h₂ : l₂ ≠ [] := by
    intro hnil
    exact h (List.length_eq_zero.mp (by rw [hp.length_eq, hnil]; rfl))
  exact le_antisymm (le_lmax l₂ _ (hp.subset (lmax_mem l₁ h)))
    (le_lmax l₁ _ (hp.symm.subset (lmax_mem l₂ h₂)))

theorem getLastD_of_ne_nil {α : Type} (B : List α) (h : B ≠ []) (d₁ d₂ : α) :
    B.getLastD d₁ = B.getLastD d₂ := by
  cases B with
  | nil => exact absurd rfl h
  | cons b bs => rw [List.getLastD_cons, List.getLastD_cons]

theorem getLastD_append_right {α : Type} (A B : List α) (h : B ≠ []) (d : α) :
    (A ++ B).getLastD d = B.getLastD d := by
  induction A generalizing d with
  | nil => rfl
  | cons a A ih =>
    rw [List.cons_append, List.getLastD_cons, ih a, getLastD_of_ne_nil B h a d]

theorem transposeRect_flatten_length (M : List (List ℚ)) (c : Nat)
    (hrect : ∀ row ∈ M, row.length = c) :
    ((transposeRect M).flatten).length = M.length * c := by
  cases M with
  | nil => simp [transposeRect]
  | cons r t =>
    have hr : r.length = c := hrect r (List.mem_cons_self r t)
    rw [List.length_flatten, transposeRect]
    simp only [List.headD_cons, List.map_map, hr]
    have hmap : (List.range c).map (List.length ∘ fun j => (r :: t).map fun row => row.getD j 0)
        = List.replicate c (r :: t).length := by
      have : (List.length ∘ fun j : Nat => (r :: t).map fun row => row.getD j 0)
          = fun _ : Nat => (r :: t).length := by
        funext j
        simp
      rw [this, List.map_const', List.length_range]
    rw [hmap, List.sum_replicate, smul_eq_mul, Nat.mul_comm]

theorem maskWhere_getElem (v : List Bool) (l : List ℚ) (i : Nat) :
    (maskWhere v l)[i]? = v[i]?.bind fun bv => l[i]?.map fun q => if bv then q else lowvalue := by
  induction v generalizing l i with
  | nil => simp [maskWhere]
  | cons bv vt ih =>
    cases l with
    | nil =>
      cases i with
      | zero => simp [maskWhere]
      | succ n => cases h : vt[n]? <;> simp [maskWhere, h]
    | cons q lt =>
      cases i with
      | zero => simp [maskWhere]
      | succ n => simpa [maskWhere] using ih lt n

theorem policyProbs_logSoftmax_getElem (l : List ℝ) (i : Nat) :
    (policyProbs (logSoftmax l))[i]? =
      l[i]?.map fun t => Real.exp (t - Real.log ((l.map Real.exp).sum)) := by
  simp only [policyProbs, logSoftmax, List.getElem?_map, Option.map_map]
  rfl

theorem gpool_zero :
    DenseAndPartialGPool.forward zeroGPool (List.replicate 128 0) = List.replicate 128 0 := by
  have hch : chunk (List.replicate 128 (0 : ℚ)) (List.replicate 6 3 ++ [110])
      = List.replicate 6 (List.replicate 3 (0 : ℚ)) ++ [List.replicate 110 0] := by
    rw [chunk_replicate_val (0 : ℚ) (List.replicate 6 3 ++ [110]) 128 (by simp)]
    simp [List.map_replicate]
  have htake : (List.replicate 6 (List.replicate 3 (0 : ℚ)) ++ [List.replicate 110 0]).take 6
      = List.replicate 6 (List.replicate 3 0) := by decide
  have hlast : (List.replicate 6 (List.replicate 3 (0 : ℚ)) ++ [List.replicate 110 0]).getLastD []
      = List.replicate 110 0 := by decide
  have hlmax : lmax (List.replicate 3 (0 : ℚ)) = 0 := by
    simp [lmax, List.replicate]
  have hlavg : lavg 3 (List.replicate 3 (0 : ℚ)) = 0 := by
    simp [lavg]
  have hlin : linear (List.replicate 116 (zeroRow 110)) (List.replicate 116 0)
      (List.replicate 110 0) = List.replicate 116 0 := by
    have h := linear_zeroW (List.replicate 116 (0 : ℚ)) 110 (List.replicate 110 0)
    simpa using h
  have hdense : reluV (bnOpt (some (0, 0)) (List.replicate 116 (0 : ℚ)))
      = List.replicate 116 0 := by
    show reluV (bnApply (0, 0) (List.replicate 116 (0 : ℚ))) = List.replicate 116 0
    rw [bnApply_zero, List.length_replicate, reluV_zero]
  simp only [DenseAndPartialGPool.forward, zeroGPool, hch, htake, hlast, hlin, hdense,
    List.map_replicate, hlmax, hlavg]
  decide

theorem v1Trunk_Wzero (pb : List ℚ) :
    v1Trunk (Wzero pb) (List.replicate 75 0) = List.replicate 128 0 := by
  have hbn : bnApply (0, 0) (List.replicate 128 (0 : ℚ)) = List.replicate 128 0 := by
    rw [bnApply_zero]; simp
  simp only [v1Trunk, Wzero, linApply_zeroLin, reluV_zero, gpool_zero, hbn]

theorem v1PolicyLogits_Wzero (pb : List ℚ) (hpb : pb.length = 2) :
    v1PolicyLogits (Wzero pb) (List.replicate 75 0) = pb := by
  rw [v1PolicyLogits, v1Trunk_Wzero]
  have h1 : linApply (Wzero pb).piA (List.replicate 128 0) = List.replicate 128 0 := by
    simp only [Wzero]
    exact linApply_zeroLin 128 128 _
  rw [h1]
  show linear (List.replicate 2 (zeroRow 128)) pb (List.replicate 128 0) = pb
  rw [← hpb]
  exact linear_zeroW pb 128 _

theorem forwardV1_eval75 (W : V1Weights) (valid : List Bool) (input : List (List ℚ))
    (h : (transposeRect input).flatten = List.replicate 75 (0 : ℚ)) :
    SantoriniNNet.forwardV1 25 3 W input valid
      = some [SantoriniNNet.elemForwardV1 W valid (List.replicate 75 0)] := by
  have hch : chunksOf (3 * 25) (List.replicate 75 (0 : ℚ)) = [List.replicate 75 0] := by decide
  simp only [SantoriniNNet.forwardV1, h]
  rw [if_pos (⟨by norm_num, by simp⟩ :
    (3 * 25 ≠ 0 ∧ 3 * 25 ∣ (List.replicate 75 (0 : ℚ)).length))]
  rw [hch]
  rfl

/-! Claim theorems. -/

/-- Claim C5: constructing PartialPoolDense (DenseAndPartialGPool) with input
length L, output length L2, group count G and items-per-group K fails with a
construction-time error exactly when L cannot be written as G * K plus a
nonnegative remainder or when L2 < 2 * G; otherwise construction succeeds. -/
theorem DenseAndPartialGPool.c5_config_check (L L2 G K : Nat) (w : List (List ℚ)) (b : List ℚ)
    (bn : Option (ℚ × ℚ)) :
    (DenseAndPartialGPool.init L L2 G K w b bn).isOk = false ↔
      (∀ r : Nat, L ≠ G * K + r) ∨ L2 < 2 * G := by
  have hiff : (∀ r : Nat, L ≠ G * K + r) ↔ L < G * K := by
    constructor
    · intro hall
      by_contra hc
      exact hall (L - G * K) (by omega)
    · intro hlt r
      omega
  rw [hiff]
  unfold DenseAndPartialGPool.init
  split_ifs with h1 h2
  · exact iff_of_false (fun h => nomatch h) (by omega)
  · exact iff_of_true rfl (Or.inr (by omega))
  · exact iff_of_true rfl (Or.inl (by omega))

/-- Witness for C5: output length 3 is smaller than 2 * 2, so construction
fails. -/
theorem c5_witness : (DenseAndPartialGPool.init 8 3 2 2 wG bG none).isOk = false :=
  (DenseAndPartialGPool.c5_config_check 8 3 2 2 wG bG none).mpr (Or.inr (by norm_num))

/-- Claim C6: every accepted Conv2dAndPartialMaxPool configuration satisfies
the channel-conservation equalities P + Gc * Kc + conv_input = C and
P + Gc + conv_output = C2, and a configuration for which either equality has
no nonnegative solution fails construction. -/
theorem Conv2dAndPartialMaxPool.c6_channel_conservation (C C2 kc P kp Gc Kc : Nat) :
    (∀ c : Conv2dAndPartialMaxPool,
        Conv2dAndPartialMaxPool.init C C2 kc P kp Gc Kc = .ok c →
          P + Gc * Kc + c.conv_input = C ∧ P + Gc + c.conv_output = C2)
    ∧ (((∀ r : Nat, P + Gc * Kc + r ≠ C) ∨ ∀ r : Nat, P + Gc + r ≠ C2) →
        (Conv2dAndPartialMaxPool.init C C2 kc P kp Gc Kc).isOk = false) := by
  constructor
  · intro c hc
    unfold Conv2dAndPartialMaxPool.init at hc
    split_ifs at hc with h1 h2
    simp only [Except.ok.injEq] at hc
    subst hc
    constructor <;> simp <;> omega
  · intro hv
    unfold Conv2dAndPartialMaxPool.init
    split_ifs with h1 h2
    · exfalso
      rcases hv with hv | hv
      · exact hv (C - P - Gc * Kc) (by omega)
      · exact hv (C2 - P - Gc) (by omega)
    · rfl
    · rfl

/-- Witness for C6: the accepted configuration (C, C2, P, Gc, Kc) =
(11, 7, 2, 2, 3) satisfies both equalities, and the configuration with C = 5
(which 2 + 2 * 3 already exceeds) fails construction. -/
theorem c6_witness :
    (2 + 2 * 3 + cC.conv_input = 11 ∧ 2 + 2 + cC.conv_output = 7)
    ∧ (Conv2dAndPartialMaxPool.init 5 7 3 2 3 2 3).isOk = false :=
  ⟨(Conv2dAndPartialMaxPool.c6_channel_conservation 11 7 3 2 3 2 3).1 cC rfl,
   (Conv2dAndPartialMaxPool.c6_channel_conservation 5 7 3 2 3 2 3).2
     (Or.inl fun r => by omega)⟩

/-- Counterexample to C7 as stated: version -1 is not one of the enumerated
architecture versions, yet SantoriniNNet construction succeeds on it. -/
theorem c7_counterexample :
    (-1 : Int) ∉ archVersions ∧ (SantoriniNNet.init (-1)).isOk = true := by
  constructor
  · decide
  · rfl

/-- Claim C7 (amended): constructing SantoriniNNet with a version id that is
neither one of the enumerated architecture versions nor the sentinel -1
fails with the unknown-version exception, so no object (and hence no partial
state) survives the call. -/
theorem SantoriniNNet.c7_unknown_version_fails (v : Int) (h1 : v ∉ archVersions)
    (h2 : v ≠ -1) : (SantoriniNNet.init v).isOk = false := by
  unfold SantoriniNNet.init
  rw [if_neg h2, if_neg h1]
  rfl

/-- Witness for C7: version 2 is unknown and construction fails. -/
theorem c7_witness :
    ((2 : Int) ∉ archVersions ∧ (2 : Int) ≠ -1) ∧ (SantoriniNNet.init 2).isOk = false :=
  ⟨⟨by decide, by decide⟩, SantoriniNNet.c7_unknown_version_fails 2 (by decide) (by decide)⟩

/-- Claim C9: constructing SantoriniNNet with version -1 succeeds, defines no
pipeline stages (only the lowvalue buffer is registered), and the stored
version matches no branch of forward, so the object cannot evaluate any
input. -/
theorem SantoriniNNet.c9_version_minus_one :
    SantoriniNNet.init (-1)
        = .ok { version := -1, definesStages := false, lowvalueBuffer := lowvalue }
    ∧ SantoriniNNet.forwardDispatches (-1) = false := by
  constructor
  · rfl
  · decide

/-- Claim C10: for every number of games and every sequence of game results,
Arena.playGames returns counters with oneWon + twoWon + draws = num, since
each game increments exactly one of the three counters. -/
theorem Arena.c10_counter_sum (num : Nat) (results : Nat → ℚ) :
    (Arena.playGames num results).1 + (Arena.playGames num results).2.1
      + (Arena.playGames num results).2.2 = num := by
  have key : ∀ (l : List Nat) (acc : Nat × Nat × Nat),
      ((l.foldl (fun acc i => Arena.playStep acc i (results i)) acc).1
        + (l.foldl (fun acc i => Arena.playStep acc i (results i)) acc).2.1
        + (l.foldl (fun acc i => Arena.playStep acc i (results i)) acc).2.2)
        = acc.1 + acc.2.1 + acc.2.2 + l.length := by
    intro l
    induction l with
    | nil => intro acc; simp
    | cons i t ih =>
      intro acc
      rw [List.foldl_cons, ih (Arena.playStep acc i (results i))]
      have hstep : (Arena.playStep acc i (results i)).1 + (Arena.playStep acc i (results i)).2.1
          + (Arena.playStep acc i (results i)).2.2 = acc.1 + acc.2.1 + acc.2.2 + 1 := by
        simp only [Arena.playStep]
        split_ifs <;> simp <;> omega
      rw [List.length_cons]
      omega
  have h := key (List.range num) (0, 0, 0)
  simpa [Arena.playGames, List.length_range] using h

/-- Claim C3: for a successfully constructed DenseAndPartialGPool with input
length L, output length L2, group count G and items-per-group K, and an input
of length L, forward returns exactly the G per-group maxima, then the G
per-group averages, then the ReLU-transformed dense remainder of length
L2 - 2 * G, so the output length is the configured L2. -/
theorem DenseAndPartialGPool.c3_forward_structure (L L2 G K : Nat) (w : List (List ℚ))
    (b : List ℚ) (bn : Option (ℚ × ℚ)) (c : DenseAndPartialGPool) (x : List ℚ)
    (hmk : DenseAndPartialGPool.init L L2 G K w b bn = .ok c)
    (hw : w.length = L2 - 2 * G) (hb : b.length = L2 - 2 * G) (hx : x.length = L) :
    c.forward x
      = ((List.range G).map fun i => lmax ((x.drop (i * K)).take K))
        ++ ((List.range G).map fun i => lavg K ((x.drop (i * K)).take K))
        ++ reluV (bnOpt bn (linear w b (x.drop (G * K))))
      ∧ (c.forward x).length = L2 := by
  unfold DenseAndPartialGPool.init at hmk
  split_ifs at hmk with h1 h2
  simp only [Except.ok.injEq] at hmk
  subst hmk
  have hsum : (List.replicate G K).sum = G * K := by
    rw [List.sum_replicate, smul_eq_mul]
  have hgr : chunk x (List.replicate G K ++ [L - G * K])
      = chunk x (List.replicate G K) ++ [x.drop (G * K)] := by
    rw [chunk_append, hsum]
    congr 1
    show [(x.drop (G * K)).take (L - G * K)] = [x.drop (G * K)]
    congr 1
    apply List.take_of_length_le
    rw [List.length_drop, hx]
  have hAlen : (chunk x (List.replicate G K)).length = G := by
    rw [chunk_length, List.length_replicate]
  have htake : (chunk x (List.replicate G K) ++ [x.drop (G * K)]).take G
      = chunk x (List.replicate G K) := List.take_left' hAlen
  have hlastg : (chunk x (List.replicate G K) ++ [x.drop (G * K)]).getLastD []
      = x.drop (G * K) := List.getLastD_concat _ _ _
  constructor
  · simp only [DenseAndPartialGPool.forward, hgr, htake, hlastg]
    rw [chunk_replicate_sizes, List.map_map, List.map_map]
    rfl
  · simp only [DenseAndPartialGPool.forward, hgr, htake, hlastg]
    rw [List.length_append, List.length_append, List.length_map, List.length_map, hAlen,
      length_reluV, length_bnOpt, length_linear, hw, hb, Nat.min_self]
    omega

/-- Witness for C3 at the accepted configuration (L, L2, G, K) = (8, 6, 2, 2). -/
theorem c3_witness :
    DenseAndPartialGPool.init 8 6 2 2 wG bG none = .ok cG
    ∧ (cG.forward [1, 2, 3, 4, 5, 6, 7, 8]).length = 6 :=
  ⟨rfl, (DenseAndPartialGPool.c3_forward_structure 8 6 2 2 wG bG none cG
      [1, 2, 3, 4, 5, 6, 7, 8] rfl (by decide) (by decide) (by decide)).2⟩

/-- Claim C4: for a successfully constructed DenseAndPartialGPool, permuting
the elements inside one pooling group (the j-th block of K consecutive
elements, j < G) leaves the forward output unchanged, in particular the max
and average of that group. -/
theorem DenseAndPartialGPool.c4_group_perm_invariant (L L2 G K : Nat) (w : List (List ℚ))
    (b : List ℚ) (bn : Option (ℚ × ℚ)) (c : DenseAndPartialGPool) (j : Nat)
    (pre g g2 post : List ℚ)
    (hmk : DenseAndPartialGPool.init L L2 G K w b bn = .ok c)
    (hj : j < G) (hK : 0 < K) (hpre : pre.length = j * K) (hg : g.length = K)
    (hperm : g.Perm g2) :
    c.forward (pre ++ g ++ post) = c.forward (pre ++ g2 ++ post) := by
  unfold DenseAndPartialGPool.init at hmk
  split_ifs at hmk with h1 h2
  simp only [Except.ok.injEq] at hmk
  subst hmk
  have hg2 : g2.length = K := by rw [← hperm.length_eq, hg]
  have hrepl : List.replicate G K = List.replicate j K ++ K :: List.replicate (G - 1 - j) K := by
    have hG : G = j + ((G - 1 - j) + 1) := by omega
    calc List.replicate G K = List.replicate (j + ((G - 1 - j) + 1)) K := by rw [← hG]
      _ = List.replicate j K ++ List.replicate ((G - 1 - j) + 1) K := List.replicate_add _ _ _
      _ = List.replicate j K ++ K :: List.replicate (G - 1 - j) K := by rw [List.replicate_succ]
  have key : ∀ y : List ℚ, y.length = K →
      chunk (pre ++ y ++ post) (List.replicate G K ++ [L - G * K])
        = chunk pre (List.replicate j K)
          ++ y :: chunk post (List.replicate (G - 1 - j) K ++ [L - G * K]) := by
    intro y hy
    have hpresum : (List.replicate j K).sum = j * K := by
      rw [List.sum_replicate, smul_eq_mul]
    rw [hrepl, List.append_assoc (List.replicate j K), List.cons_append, chunk_append]
    have hx1 : pre ++ y ++ post = pre ++ (y ++ post) := by rw [List.append_assoc]
    have hchunkpre : chunk (pre ++ (y ++ post)) (List.replicate j K)
        = chunk pre (List.replicate j K) := chunk_of_append _ _ _ (by rw [hpresum, hpre])
    have hdrop : (pre ++ (y ++ post)).drop (List.replicate j K).sum = y ++ post := by
      rw [hpresum, ← hpre, List.drop_left]
    rw [hx1, hchunkpre, hdrop]
    show _ ++ ((y ++ post).take K
        :: chunk ((y ++ post).drop K) (List.replicate (G - 1 - j) K ++ [L - G * K])) = _
    rw [List.take_left' hy, List.drop_left' hy]
  simp only [DenseAndPartialGPool.forward]
  rw [key g hg, key g2 hg2]
  set C1 := chunk pre (List.replicate j K) with hC1
  set C2 := chunk post (List.replicate (G - 1 - j) K ++ [L - G * K]) with hC2
  have hC1len : C1.length = j := by rw [hC1, chunk_length, List.length_replicate]
  have hC2len : C2.length = G - j := by
    rw [hC2, chunk_length, List.length_append, List.length_replicate]
    simp
    omega
  have hC2ne : C2 ≠ [] := by
    apply List.ne_nil_of_length_pos
    rw [hC2len]
    omega
  have htake : ∀ y : List ℚ, (C1 ++ y :: C2).take G = C1 ++ y :: C2.take (G - 1 - j) := by
    intro y
    rw [List.take_append_eq_append_take, List.take_of_length_le (by rw [hC1len]; omega), hC1len]
    have hGj : G - j = (G - 1 - j) + 1 := by omega
    rw [hGj, List.take_succ_cons]
  have hlast : ∀ y : List ℚ, (C1 ++ y :: C2).getLastD [] = C2.getLastD [] := by
    intro y
    rw [getLastD_append_right C1 (y :: C2) (by simp) [], List.getLastD_cons,
      getLastD_of_ne_nil C2 hC2ne y []]
  rw [htake g, htake g2, hlast g, hlast g2]
  have hgne : g ≠ [] := List.ne_nil_of_length_pos (by rw [hg]; omega)
  have hlmaxg : lmax g = lmax g2 := lmax_perm g g2 hperm hgne
  have hlavgg : lavg K g = lavg K g2 := by rw [lavg, lavg, hperm.sum_eq]
  simp only [List.map_append, List.map_cons, hlmaxg, hlavgg]

/-- Witness for C4: swapping the two elements of the first pooling group of
the small instance leaves forward unchanged. -/
theorem c4_witness :
    ([1, 2] : List ℚ).Perm [2, 1]
    ∧ cG.forward ([] ++ [1, 2] ++ [3, 4, 5, 6, 7, 8])
        = cG.forward ([] ++ [2, 1] ++ [3, 4, 5, 6, 7, 8]) :=
  ⟨by decide, DenseAndPartialGPool.c4_group_perm_invariant 8 6 2 2 wG bG none cG 0
      [] [1, 2] [2, 1] [3, 4, 5, 6, 7, 8] rfl (by decide) (by decide) (by decide) (by decide)
      (by decide)⟩

/-- Claim C1: in the version-1 SantoriniNNet.forward the returned batch is
exactly the per-board evaluations, each returned log-policy is the
log-softmax of the masked logits (masking happens before normalization and
nothing is applied after it), and in the masked logits every position whose
mask entry is false is overwritten with the constant lowvalue = -1e8 while
every position whose mask entry is true keeps the raw policy-head logit. -/
theorem SantoriniNNet.c1_mask_before_normalization (nb_vect vect_dim : Nat) (W : V1Weights)
    (input : List (List ℚ)) (valid : List Bool) (outs : List (List ℝ × List ℝ))
    (hout : SantoriniNNet.forwardV1 nb_vect vect_dim W input valid = some outs) :
    outs = (chunksOf (vect_dim * nb_vect) (transposeRect input).flatten).map
        (fun x0 => SantoriniNNet.elemForwardV1 W valid x0)
    ∧ (∀ x0 : List ℚ, (SantoriniNNet.elemForwardV1 W valid x0).1
        = logSoftmax ((maskWhere valid (v1PolicyLogits W x0)).map fun q : ℚ => (q : ℝ)))
    ∧ ∀ (x0 : List ℚ) (i : Nat) (p : ℚ), (v1PolicyLogits W x0)[i]? = some p →
        ((valid[i]? = some false → (maskWhere valid (v1PolicyLogits W x0))[i]? = some lowvalue)
          ∧ (valid[i]? = some true → (maskWhere valid (v1PolicyLogits W x0))[i]? = some p)) := by
  refine ⟨?_, ?_, ?_⟩
  · simp only [SantoriniNNet.forwardV1] at hout
    split_ifs at hout with hc
    injection hout with h
    exact h.symm
  · intro x0
    rfl
  · intro x0 i p hp
    constructor
    · intro hv
      rw [maskWhere_getElem, hv, hp]
      rfl
    · intro hv
      rw [maskWhere_getElem, hv, hp]
      rfl

/-- Witness for C1 on the zero board with weights W0 and mask [true, false]. -/
theorem c1_witness :
    SantoriniNNet.forwardV1 25 3 W0 input0 valid0
        = some [SantoriniNNet.elemForwardV1 W0 valid0 (List.replicate 75 0)]
    ∧ (SantoriniNNet.elemForwardV1 W0 valid0 (List.replicate 75 0)).1
        = logSoftmax ((maskWhere valid0 (v1PolicyLogits W0 (List.replicate 75 0))).map
            fun q : ℚ => (q : ℝ)) := by
  have h := forwardV1_eval75 W0 valid0 input0 (by decide)
  exact ⟨h, (SantoriniNNet.c1_mask_before_normalization 25 3 W0 input0 valid0 _ h).2.1
      (List.replicate 75 0)⟩

/-- Claim C2 (amended): in the version-1 forward, if some action index has a
true mask entry whose raw policy logit is strictly above lowvalue = -1e8,
then every index carrying a maximal entry of exp(log_policy) has a true mask
entry.  As literally stated the claim fails when every valid logit is at or
below lowvalue; see the counterexample theorem. -/
theorem SantoriniNNet.c2_argmax_has_true_mask (W : V1Weights) (valid : List Bool)
    (x0 : List ℚ) (t : Nat) (ht : valid[t]? = some true)
    (hgt : ∃ p : ℚ, (v1PolicyLogits W x0)[t]? = some p ∧ lowvalue < p) :
    ∀ i : Nat, IsArgmax (policyProbs (SantoriniNNet.elemForwardV1 W valid x0).1) i →
      valid[i]? = some true := by
  obtain ⟨pt, hpt, hptlow⟩ := hgt
  intro i hi
  obtain ⟨P, hPi, hmax⟩ := hi
  set m := maskWhere valid (v1PolicyLogits W x0) with hmdef
  set SR := ((m.map fun q : ℚ => (q : ℝ)).map Real.exp).sum with hSRdef
  have hfwd : (SantoriniNNet.elemForwardV1 W valid x0).1
      = logSoftmax (m.map fun q : ℚ => (q : ℝ)) := by
    rw [hmdef]
    simp only [SantoriniNNet.elemForwardV1]
  rw [hfwd] at hPi hmax
  have hmt : m[t]? = some pt := by
    rw [hmdef, maskWhere_getElem, ht, hpt]
    rfl
  have hgetp : ∀ k : Nat,
      (policyProbs (logSoftmax (m.map fun q : ℚ => (q : ℝ))))[k]?
        = (m[k]?).map fun q : ℚ => Real.exp ((q : ℝ) - Real.log SR) := by
    intro k
    rw [policyProbs_logSoftmax_getElem, List.getElem?_map, Option.map_map, hSRdef]
    rfl
  rw [hgetp i] at hPi
  cases hmi : m[i]? with
  | none =>
    rw [hmi] at hPi
    exact Option.noConfusion hPi
  | some mi =>
    rw [hmi, Option.map_some'] at hPi
    have hPv : Real.exp ((mi : ℝ) - Real.log SR) = P := Option.some.inj hPi
    have hprobt : Real.exp ((pt : ℝ) - Real.log SR) ≤ P :=
      hmax t (Real.exp ((pt : ℝ) - Real.log SR)) (by rw [hgetp t, hmt, Option.map_some'])
    have hle : pt ≤ mi := by
      rw [← hPv] at hprobt
      exact_mod_cast (sub_le_sub_iff_right (Real.log SR)).mp (Real.exp_le_exp.mp hprobt)
    rw [hmdef, maskWhere_getElem] at hmi
    cases hvi : valid[i]? with
    | none =>
      rw [hvi] at hmi
      exact Option.noConfusion hmi
    | some bv =>
      rw [hvi, Option.some_bind] at hmi
      cases hli : (v1PolicyLogits W x0)[i]? with
      | none =>
        rw [hli] at hmi
        exact Option.noConfusion hmi
      | some q =>
        rw [hli, Option.map_some'] at hmi
        have hmi2 : (if bv then q else lowvalue) = mi := Option.some.inj hmi
        cases bv with
        | true => rfl
        | false =>
          exfalso
          have hmi3 : lowvalue = mi := hmi2
          rw [← hmi3] at hle
          exact absurd (lt_of_lt_of_le hptlow hle) (lt_irrefl lowvalue)

/-- Witness for the amended C2: with weights W1 (zero logits), the valid
action 0 has logit 0 above lowvalue, so every argmax index is valid. -/
theorem c2_amended_witness :
    valid0[0]? = some true
    ∧ ∀ i : Nat,
        IsArgmax (policyProbs (SantoriniNNet.elemForwardV1 W1 valid0 (List.replicate 75 0)).1) i →
          valid0[i]? = some true := by
  have hpl : v1PolicyLogits W1 (List.replicate 75 0) = [0, 0] := by
    show v1PolicyLogits (Wzero [0, 0]) (List.replicate 75 0) = [0, 0]
    exact v1PolicyLogits_Wzero [0, 0] rfl
  refine ⟨rfl, SantoriniNNet.c2_argmax_has_true_mask W1 valid0 (List.replicate 75 0) 0 rfl ?_⟩
  refine ⟨0, ?_, ?_⟩
  · rw [hpl]
    rfl
  · show lowvalue < 0
    decide

/-- Counterexample to C2 as stated: with version-1 weights W0 the policy
logits on the zero board are [-2e8, 0] and the mask is [true, false]; the
mask has a true entry, yet the index with the maximal probability is 1,
whose mask entry is false, because the only valid logit -2e8 lies below the
masking constant -1e8. -/
theorem c2_counterexample :
    valid0[0]? = some true
    ∧ SantoriniNNet.forwardV1 25 3 W0 input0 valid0
        = some [SantoriniNNet.elemForwardV1 W0 valid0 (List.replicate 75 0)]
    ∧ IsArgmax (policyProbs (SantoriniNNet.elemForwardV1 W0 valid0 (List.replicate 75 0)).1) 1
    ∧ valid0[1]? = some false := by
  have hpl : v1PolicyLogits W0 (List.replicate 75 0) = [-200000000, 0] := by
    show v1PolicyLogits (Wzero [-200000000, 0]) (List.replicate 75 0) = [-200000000, 0]
    exact v1PolicyLogits_Wzero [-200000000, 0] rfl
  have hmask : maskWhere valid0 (v1PolicyLogits W0 (List.replicate 75 0))
      = [-200000000, -100000000] := by
    rw [hpl]
    decide
  refine ⟨rfl, forwardV1_eval75 W0 valid0 input0 (by decide), ?_, rfl⟩
  have hfwd : (SantoriniNNet.elemForwardV1 W0 valid0 (List.replicate 75 0)).1
      = logSoftmax ((([-200000000, -100000000] : List ℚ)).map fun q : ℚ => (q : ℝ)) := by
    show logSoftmax ((maskWhere valid0 (v1PolicyLogits W0 (List.replicate 75 0))).map
        fun q : ℚ => (q : ℝ)) = _
    rw [hmask]
  rw [hfwd]
  set L2 : List ℚ := [-200000000, -100000000] with hL2
  set SR := ((L2.map fun q : ℚ => (q : ℝ)).map Real.exp).sum with hSRdef
  have hgetp : ∀ k : Nat,
      (policyProbs (logSoftmax (L2.map fun q : ℚ => (q : ℝ))))[k]?
        = (L2[k]?).map fun q : ℚ => Real.exp ((q : ℝ) - Real.log SR) := by
    intro k
    rw [policyProbs_logSoftmax_getElem, List.getElem?_map, Option.map_map, hSRdef]
    rfl
  refine ⟨Real.exp (((-100000000 : ℚ) : ℝ) - Real.log SR), ?_, ?_⟩
  · rw [hgetp 1]
    rfl
  · intro j q hq
    rw [hgetp j] at hq
    match j with
    | 0 =>
      have hq2 : Real.exp (((-200000000 : ℚ) : ℝ) - Real.log SR) = q := Option.some.inj hq
      rw [← hq2]
      apply Real.exp_le_exp.mpr
      apply (sub_le_sub_iff_right (Real.log SR)).mpr
      exact_mod_cast (by norm_num : (-200000000 : ℚ) ≤ -100000000)
    | 1 =>
      have hq2 : Real.exp (((-100000000 : ℚ) : ℝ) - Real.log SR) = q := Option.some.inj hq
      rw [← hq2]
    | (n + 2) =>
      exact Option.noConfusion hq

/-- Claim C8 (amended): in the version-1 forward, an encoding whose total
element count is not a multiple of the declared per-board count
vect_dim * nb_vect makes view raise, so evaluation fails and the error
propagates to the caller.  As literally stated the claim is false: an
encoding of a different shape whose element count is compatible, such as
(1, 75) against the declared (25, 3), is silently absorbed into the batch
dimension by view(-1, ...); see the counterexample theorem. -/
theorem SantoriniNNet.c8_incompatible_shape_fails (nb_vect vect_dim cols : Nat)
    (W : V1Weights) (input : List (List ℚ)) (valid : List Bool)
    (hrect : ∀ row ∈ input, row.length = cols)
    (hdvd : ¬ vect_dim * nb_vect ∣ input.length * cols) :
    SantoriniNNet.forwardV1 nb_vect vect_dim W input valid = none := by
  have hlen : ((transposeRect input).flatten).length = input.length * cols :=
    transposeRect_flatten_length input cols hrect
  simp only [SantoriniNNet.forwardV1]
  rw [if_neg]
  intro hcond
  exact hdvd (hlen ▸ hcond.2)

/-- Witness for the amended C8: a (1, 1) encoding has 1 element, which is not
a multiple of 75, so the version-1 forward fails. -/
theorem c8_witness :
    (∀ row ∈ [[(0 : ℚ)]], row.length = 1) ∧ ¬ (3 * 25 ∣ [[(0 : ℚ)]].length * 1)
    ∧ SantoriniNNet.forwardV1 25 3 W0 [[(0 : ℚ)]] valid0 = none :=
  ⟨by decide, by decide,
   SantoriniNNet.c8_incompatible_shape_fails 25 3 1 W0 [[(0 : ℚ)]] valid0 (by decide)
     (by decide)⟩

/-- Counterexample to C8 as stated: the encoding input1 of shape (1, 75)
disagrees with the declared version-1 shape (25, 3), yet forward evaluates
it successfully instead of failing, because view silently reshapes it. -/
theorem c8_counterexample :
    (input1.length, (input1.headD []).length) ≠ (25, 3)
    ∧ (SantoriniNNet.forwardV1 25 3 W0 input1 valid0).isSome = true := by
  constructor
  · decide
  · rw [forwardV1_eval75 W0 valid0 input1 (by decide)]
    rfl
